import Mathlib

set_option maxRecDepth 8000

attribute [local semireducible] Rat.add Rat.mul Rat.inv Rat.sub Rat.ofScientific

namespace Geojump

/-- JavaScript whitespace class (the regex class backslash-s and the set used by
String.prototype.trim), restricted to the ASCII whitespace characters. -/
def isWS (c : Char) : Bool :=
  c == ' ' || c == '\t' || c == '\n' || c == '\r' || c == '\x0b' || c == '\x0c'

/-- Separator class of the split regex used by the bare decimal notation:
a comma or a whitespace character. -/
def isSep (c : Char) : Bool := c == ',' || isWS c

/-- Reading a run of decimal digits, as JavaScript parseFloat and parseInt do:
accumulates the value and the digit count, stops at the first non-digit. -/
def readDigits : List Char → Nat → Nat → Nat × Nat × List Char
  | c :: r, acc, cnt =>
    if c.isDigit then readDigits r (10 * acc + (c.toNat - 48)) (cnt + 1)
    else (acc, cnt, c :: r)
  | [], acc, cnt => (acc, cnt, [])

/-- Optional single leading sign, as consumed by parseFloat and parseInt. -/
def stripSign (s : List Char) : Bool × List Char :=
  match s with
  | c :: r =>
    if c = '-' then (true, r) else if c = '+' then (false, r) else (false, c :: r)
  | [] => (false, [])

/-- Optional exponent part of a JavaScript number literal: e or E, optional
sign, at least one digit; consumed only when complete. -/
def readExp (s : List Char) : Option (Int × List Char) :=
  match s with
  | c :: r =>
    if c = 'e' ∨ c = 'E' then
      let sr : Bool × List Char :=
        match r with
        | d :: r2 =>
          if d = '-' then (true, r2) else if d = '+' then (false, r2) else (false, d :: r2)
        | [] => (false, [])
      let t := readDigits sr.2 0 0
      if t.2.1 = 0 then none
      else some ((if sr.1 then -(t.1 : Int) else (t.1 : Int)), t.2.2)
    else none
  | [] => none

/-- Final phase of parseFloat: apply an optional exponent to the unsigned
mantissa and then the sign. -/
def pfFinish (neg : Bool) (m : ℚ) (rest : List Char) : Option (ℚ × List Char) :=
  match readExp rest with
  | some er => some ((if neg then -(m * 10 ^ er.1) else m * 10 ^ er.1), er.2)
  | none => some ((if neg then -m else m), rest)

/-- Digit phase of parseFloat, on the input after whitespace and sign:
integer digits, optional fraction, optional exponent; NaN (none) when there
is no digit in the mantissa at all. -/
def pfBody (neg : Bool) (s2 : List Char) : Option (ℚ × List Char) :=
  match readDigits s2 0 0 with
  | (ip, ic, s3) =>
    match s3 with
    | c :: r =>
      if c = '.' then
        match readDigits r 0 0 with
        | (fp, fc, s4) =>
          if ic = 0 ∧ fc = 0 then none
          else pfFinish neg ((ip : ℚ) + (fp : ℚ) / (10 : ℚ) ^ fc) s4
      else if ic = 0 then none else pfFinish neg (ip : ℚ) (c :: r)
    | [] => if ic = 0 then none else pfFinish neg (ip : ℚ) []

/-- JavaScript parseFloat on a character list: skip leading whitespace, optional
sign, longest numeric prefix (digits, optional fraction, optional exponent).
Returns the value together with the unconsumed rest; none models NaN
(no numeric prefix at all). -/
def parseFloatAux (s : List Char) : Option (ℚ × List Char) :=
  pfBody (stripSign (s.dropWhile isWS)).1 (stripSign (s.dropWhile isWS)).2

/-- JavaScript parseFloat, value only; none models NaN. -/
def parseFloat (s : List Char) : Option ℚ := (parseFloatAux s).map Prod.fst

/-- JavaScript parseInt with radix 10; none models NaN. -/
def parseInt10 (s : List Char) : Option ℚ :=
  let s1 := s.dropWhile isWS
  let sg := stripSign s1
  let t := readDigits sg.2 0 0
  if t.2.1 = 0 then none else some (if sg.1 then -(t.1 : ℚ) else (t.1 : ℚ))

/-- Worker for collapseWS: the flag records whether the previous character was
whitespace (i.e. we are inside a run already replaced by one space). -/
def collapseWSGo : Bool → List Char → List Char
  | _, [] => []
  | inRun, c :: rest =>
    if isWS c then
      if inRun then collapseWSGo true rest else ' ' :: collapseWSGo true rest
    else c :: collapseWSGo false rest

/-- input.replace of every whitespace run by a single space, as the source
does before splitting. -/
def collapseWS (s : List Char) : List Char := collapseWSGo false s

/-- Worker for splitSep: cur is the current token (reversed), afterSep records
whether the previous character was part of a separator run. -/
def splitGo (p : Char → Bool) : List Char → List Char → Bool → List (List Char)
  | [], cur, _ => [cur.reverse]
  | c :: rest, cur, afterSep =>
    if p c then
      if afterSep then splitGo p rest [] true
      else cur.reverse :: splitGo p rest [] true
    else splitGo p rest (c :: cur) false

/-- JavaScript String.prototype.split on a one-or-more character-class regex:
tokens between maximal separator runs, with empty tokens at the boundaries. -/
def splitSep (p : Char → Bool) (s : List Char) : List (List Char) := splitGo p s [] false

/-- JavaScript String.prototype.trim. -/
def jsTrim (s : List Char) : List Char :=
  ((s.dropWhile isWS).reverse.dropWhile isWS).reverse

/-- Modelled from the spec: the GeojumpCoordinates value of the common module
(the common module itself is not among the sources; its shape is fixed by the
Coordinate entity of the data model: latitude, longitude, optional zoom hint). -/
structure GeojumpCoordinates where
  lat : ℚ
  lon : ℚ
  zoom : Option ℚ := none
  deriving DecidableEq

/-- Modelled from the spec: the CoordinateFormat enumeration of the common
module (not among the sources), the closed Notation enumeration of the data
model. -/
inductive CoordinateFormat where
  | DECIMAL_DEGREES
  | DEGREES_MINUTES_SECONDS
  | DEGREES_DECIMAL_MINUTES
  deriving DecidableEq

/-- isValidLatitude of the source. -/
def isValidLatitude (lat : ℚ) : Bool := decide (-90 ≤ lat ∧ lat ≤ 90)

/-- isValidLongitude of the source. -/
def isValidLongitude (lon : ℚ) : Bool := decide (-180 ≤ lon ∧ lon ≤ 180)

/-- parseDecimalDegrees of the source: collapse whitespace, split on the
comma-or-whitespace class, require exactly two tokens, parseFloat each,
validate ranges. -/
def parseDecimalDegrees (input : List Char) : Option GeojumpCoordinates :=
  match splitSep isSep (collapseWS input) with
  | [p0, p1] =>
    match parseFloat p0, parseFloat p1 with
    | some lat, some lon =>
      if isValidLatitude lat && isValidLongitude lon then some ⟨lat, lon, none⟩ else none
    | _, _ => none
  | _ => none

/-- Syntax of the regular expressions occurring in the source: character
classes, concatenation, greedy option, capture groups, greedy bounded
repetition of a class, greedy star of a class. -/
inductive RE where
  | cls (p : Char → Bool)
  | seq (a b : RE)
  | opt (a : RE)
  | grp (a : RE)
  | repc (p : Char → Bool) (lo hi : Nat)
  | starc (p : Char → Bool)

/-- First-success choice on optional capture lists (backtracking order). -/
def oor (a b : Option (List (List Char))) : Option (List (List Char)) :=
  match a with
  | some x => some x
  | none => b

/-- Greedy star of a character class, with backtracking continuation. -/
def starLoop (p : Char → Bool) :
    List Char → List (List Char) →
    (List Char → List (List Char) → Option (List (List Char))) →
    Option (List (List Char))
  | c :: r, caps, k =>
    if p c then oor (starLoop p r caps k) (k (c :: r) caps) else k (c :: r) caps
  | [], caps, k => k [] caps

/-- Greedy bounded repetition of a character class (lo to hi occurrences),
with backtracking continuation. -/
def repLoop (p : Char → Bool) : Nat → Nat →
    List Char → List (List Char) →
    (List Char → List (List Char) → Option (List (List Char))) →
    Option (List (List Char))
  | lo, 0, s, caps, k => if lo = 0 then k s caps else none
  | lo, hi + 1, s, caps, k =>
    match s with
    | c :: r =>
      if p c then
        oor (repLoop p (lo - 1) hi r caps k) (if lo = 0 then k s caps else none)
      else if lo = 0 then k s caps else none
    | [] => if lo = 0 then k [] caps else none

/-- Backtracking matcher with JavaScript semantics: greedy quantifiers,
leftmost-first alternatives, capture groups numbered in opening order. -/
def mrun : RE → List Char → List (List Char) →
    (List Char → List (List Char) → Option (List (List Char))) →
    Option (List (List Char))
  | .cls p, s, caps, k =>
    match s with
    | c :: r => if p c then k r caps else none
    | [] => none
  | .seq a b, s, caps, k => mrun a s caps fun s2 caps2 => mrun b s2 caps2 k
  | .opt a, s, caps, k => oor (mrun a s caps k) (k s caps)
  | .grp a, s, caps, k =>
    mrun a s caps fun s2 caps2 => k s2 (caps2 ++ [s.take (s.length - s2.length)])
  | .repc p lo hi, s, caps, k => repLoop p lo hi s caps k
  | .starc p, s, caps, k => starLoop p s caps k

/-- JavaScript String.prototype.match without the global flag: the pattern is
tried at each start position from the left; the first successful start wins;
returns the capture groups. -/
def reFind (re : RE) : List Char → Option (List (List Char))
  | [] =>
    mrun re [] [] fun _ caps => some caps
  | c :: rest =>
    match mrun re (c :: rest) [] (fun _ caps => some caps) with
    | some caps => some caps
    | none => reFind re rest

/-- The cardinal-letter class [NSEW] under the case-insensitive flag. -/
def isNSEW (c : Char) : Bool :=
  c == 'N' || c == 'S' || c == 'E' || c == 'W' ||
  c == 'n' || c == 's' || c == 'e' || c == 'w'

/-- Single literal character. -/
def chr (x : Char) : RE := .cls fun c => c == x

/-- The apostrophe character (minute mark). -/
def apos : Char := Char.ofNat 39

/-- The double-quote character (second mark). -/
def quot : Char := Char.ofNat 34

/-- Optional fraction: an optional dot followed by one or more digits. -/
def fracOpt : RE := .opt (.seq (chr '.') (.seq (.cls Char.isDigit) (.starc Char.isDigit)))

/-- One-to-three digits with optional fraction. -/
def num13 : RE := .seq (.repc Char.isDigit 1 3) fracOpt

/-- One-to-two digits with optional fraction. -/
def num12 : RE := .seq (.repc Char.isDigit 1 2) fracOpt

/-- One-to-three digits. -/
def int13 : RE := .repc Char.isDigit 1 3

/-- One-to-two digits. -/
def int12 : RE := .repc Char.isDigit 1 2

/-- Zero or more whitespace characters. -/
def wsStar : RE := .starc isWS

/-- An optional comma. -/
def commaOpt : RE := .opt (chr ',')

/-- Concatenation of a pattern list (the empty list is the empty pattern). -/
def reCat (l : List RE) : RE := l.foldr RE.seq (.repc (fun _ => false) 0 0)

/-- First pattern of parseDecimalDegreesWithSymbols: number, degree sign,
cardinal, optional comma, number, degree sign, cardinal. -/
def symPat1 : RE :=
  reCat [.grp num13, chr '°', wsStar, .grp (.cls isNSEW), wsStar, commaOpt, wsStar,
    .grp num13, chr '°', wsStar, .grp (.cls isNSEW)]

/-- Second pattern of parseDecimalDegreesWithSymbols: cardinal before its
number in each pair. -/
def symPat2 : RE :=
  reCat [.grp (.cls isNSEW), wsStar, .grp num13, chr '°', wsStar, commaOpt, wsStar,
    .grp (.cls isNSEW), wsStar, .grp num13, chr '°']

/-- One DMS angle group: degrees, degree sign, minutes, minute mark, seconds,
optional second mark, cardinal. -/
def dmsHalf : List RE :=
  [.grp int13, chr '°', wsStar, .grp int12, chr apos, wsStar, .grp num12,
    .opt (chr quot), wsStar, .grp (.cls isNSEW)]

/-- First DMS pattern: two angle groups joined by optional whitespace. -/
def dmsPat1 : RE := reCat (dmsHalf ++ [wsStar] ++ dmsHalf)

/-- Second DMS pattern: two angle groups joined by optional whitespace and an
optional comma. -/
def dmsPat2 : RE := reCat (dmsHalf ++ [wsStar, commaOpt, wsStar] ++ dmsHalf)

/-- One DDM angle group: degrees, degree sign, decimal minutes, optional
minute mark, cardinal. -/
def ddmHalf : List RE :=
  [.grp int13, chr '°', wsStar, .grp num12, .opt (chr apos), wsStar, .grp (.cls isNSEW)]

/-- First DDM pattern: two angle groups joined by optional whitespace. -/
def ddmPat1 : RE := reCat (ddmHalf ++ [wsStar] ++ ddmHalf)

/-- Second DDM pattern: two angle groups joined by optional whitespace and an
optional comma. -/
def ddmPat2 : RE := reCat (ddmHalf ++ [wsStar, commaOpt, wsStar] ++ ddmHalf)

/-- applyDirection of the source: the cardinal letter alone fixes the sign of
the absolute value. -/
def applyDirection (value : ℚ) (direction : Char) (isLatitude : Bool) : ℚ :=
  if isLatitude then if direction = 'S' then -|value| else |value|
  else if direction = 'W' then -|value| else |value|

/-- The single character of a one-character capture group, uppercased
(direction.toUpperCase of the source). -/
def dirOf (cap : List Char) : Char := (cap.headD ' ').toUpper

/-- Numeric part shared by both symbol patterns: parseFloat both magnitudes,
apply the cardinal directions, range-check, build the coordinate. -/
def symCompute (latValue latDir lonValue lonDir : List Char) : Option GeojumpCoordinates :=
  match parseFloat latValue, parseFloat lonValue with
  | some lv, some nv =>
    if isValidLatitude (applyDirection lv (dirOf latDir) true) &&
        isValidLongitude (applyDirection nv (dirOf lonDir) false) then
      some ⟨applyDirection lv (dirOf latDir) true,
        applyDirection nv (dirOf lonDir) false, none⟩
    else none
  | _, _ => none

/-- Attempt of the first symbol pattern. -/
def symMatch1 (input : List Char) : Option GeojumpCoordinates :=
  match reFind symPat1 input with
  | some [lv, ld, nv, nd] => symCompute lv ld nv nd
  | _ => none

/-- Attempt of the second symbol pattern (cardinal letter first). -/
def symMatch2 (input : List Char) : Option GeojumpCoordinates :=
  match reFind symPat2 input with
  | some [ld, lv, nd, nv] => symCompute lv ld nv nd
  | _ => none

/-- parseDecimalDegreesWithSymbols of the source: try the two patterns in
order; a matched pattern whose numbers fail the range check falls through to
the next pattern. -/
def parseDecimalDegreesWithSymbols (input : List Char) : Option GeojumpCoordinates :=
  match symMatch1 input with
  | some r => some r
  | none => symMatch2 input

/-- dmsToDecimal of the source: reject out-of-domain components, otherwise
degrees plus minutes over sixty plus seconds over thirty-six hundred, negated
for south and west. -/
def dmsToDecimal (degrees minutes seconds : ℚ) (direction : Char) : Option ℚ :=
  if degrees < 0 ∨ minutes < 0 ∨ seconds < 0 ∨ 60 ≤ minutes ∨ 60 ≤ seconds then none
  else
    let decimal := degrees + minutes / 60 + seconds / 3600
    some (if direction = 'S' ∨ direction = 'W' then -decimal else decimal)

/-- ddmToDecimal of the source. -/
def ddmToDecimal (degrees minutes : ℚ) (direction : Char) : Option ℚ :=
  if degrees < 0 ∨ minutes < 0 ∨ 60 ≤ minutes then none
  else
    let decimal := degrees + minutes / 60
    some (if direction = 'S' ∨ direction = 'W' then -decimal else decimal)

/-- Numeric part of a matched DMS pattern: parseInt the integer components,
parseFloat the seconds, convert both groups; no range validation happens
here, faithfully to the source. -/
def dmsCompute (aDeg aMin aSec aDir bDeg bMin bSec bDir : List Char) :
    Option GeojumpCoordinates :=
  match parseInt10 aDeg, parseInt10 aMin, parseFloat aSec,
      parseInt10 bDeg, parseInt10 bMin, parseFloat bSec with
  | some d1, some m1, some s1, some d2, some m2, some s2 =>
    match dmsToDecimal d1 m1 s1 (dirOf aDir), dmsToDecimal d2 m2 s2 (dirOf bDir) with
    | some lat, some lon => some ⟨lat, lon, none⟩
    | _, _ => none
  | _, _, _, _, _, _ => none

/-- Attempt of the first DMS pattern. -/
def dmsMatch1 (input : List Char) : Option GeojumpCoordinates :=
  match reFind dmsPat1 input with
  | some [a, b, c, d, e, f, g, h] => dmsCompute a b c d e f g h
  | _ => none

/-- Attempt of the second DMS pattern. -/
def dmsMatch2 (input : List Char) : Option GeojumpCoordinates :=
  match reFind dmsPat2 input with
  | some [a, b, c, d, e, f, g, h] => dmsCompute a b c d e f g h
  | _ => none

/-- parseDegreesMinutesSeconds of the source: try the two DMS patterns in
order; a matched pattern whose conversion fails falls through to the next. -/
def parseDegreesMinutesSeconds (input : List Char) : Option GeojumpCoordinates :=
  match dmsMatch1 input with
  | some r => some r
  | none => dmsMatch2 input

/-- Numeric part of a matched DDM pattern; no range validation, faithfully to
the source. -/
def ddmCompute (aDeg aMin aDir bDeg bMin bDir : List Char) : Option GeojumpCoordinates :=
  match parseInt10 aDeg, parseFloat aMin, parseInt10 bDeg, parseFloat bMin with
  | some d1, some m1, some d2, some m2 =>
    match ddmToDecimal d1 m1 (dirOf aDir), ddmToDecimal d2 m2 (dirOf bDir) with
    | some lat, some lon => some ⟨lat, lon, none⟩
    | _, _ => none
  | _, _, _, _ => none

/-- Attempt of the first DDM pattern. -/
def ddmMatch1 (input : List Char) : Option GeojumpCoordinates :=
  match reFind ddmPat1 input with
  | some [a, b, c, d, e, f] => ddmCompute a b c d e f
  | _ => none

/-- Attempt of the second DDM pattern. -/
def ddmMatch2 (input : List Char) : Option GeojumpCoordinates :=
  match reFind ddmPat2 input with
  | some [a, b, c, d, e, f] => ddmCompute a b c d e f
  | _ => none

/-- parseDegreesDecimalMinutes of the source. -/
def parseDegreesDecimalMinutes (input : List Char) : Option GeojumpCoordinates :=
  match ddmMatch1 input with
  | some r => some r
  | none => ddmMatch2 input

/-- parseCoordinates of the source on a character list: reject the empty
input, trim, then try the four notations in their fixed order. -/
def parseCoordinatesL (input : List Char) : Option GeojumpCoordinates :=
  if input = [] then none
  else
    let t := jsTrim input
    match parseDecimalDegrees t with
    | some r => some r
    | none =>
      match parseDecimalDegreesWithSymbols t with
      | some r => some r
      | none =>
        match parseDegreesMinutesSeconds t with
        | some r => some r
        | none => parseDegreesDecimalMinutes t

/-- parseCoordinates of the source. -/
def parseCoordinates (input : String) : Option GeojumpCoordinates :=
  parseCoordinatesL input.data

/-- Little-endian decimal digits of a natural number, fuelled (the fuel is an
upper bound on the number, so the recursion is structural). -/
def digitsLE : Nat → Nat → List Nat
  | 0, _ => []
  | fuel + 1, n => if n = 0 then [] else n % 10 :: digitsLE fuel (n / 10)

/-- The character of a decimal digit. -/
def dCh (d : Nat) : Char := Char.ofNat (48 + d)

/-- Decimal notation of a natural number as JavaScript prints integers. -/
def natDigits (n : Nat) : List Char :=
  if n = 0 then ['0'] else ((digitsLE n n).reverse.map dCh)

/-- The value of a big-endian digit-character list continuing an accumulator,
exactly the accumulation readDigits performs. -/
def valD (ds : List Char) (acc : Nat) : Nat :=
  ds.foldl (fun a c => 10 * a + (c.toNat - 48)) acc

/-- Decimal digits padded on the left with zeros to a fixed width. -/
def padDigits (k : Nat) (n : Nat) : List Char :=
  let ds := natDigits n
  List.replicate (k - ds.length) '0' ++ ds

/-- Rounding to the nearest integer, ties away from zero on a non-negative
argument — the rounding of Number.prototype.toFixed, which is applied to the
absolute value. -/
def ratRoundHalfUp (x : ℚ) : ℤ := ⌊x + 1 / 2⌋

/-- Number.prototype.toFixed with k fraction digits: sign of the input, then
the rounded absolute value with exactly k digits after the dot. -/
def toFixed (k : Nat) (q : ℚ) : List Char :=
  let n : ℕ := (ratRoundHalfUp (|q| * 10 ^ k)).toNat
  (if q < 0 then ['-'] else []) ++ natDigits (n / 10 ^ k) ++ '.' :: padDigits k (n % 10 ^ k)

/-- The value a coordinate component rounds to at k decimal places, under the
same rounding toFixed uses; a component equal to its own rounding is exactly
representable with k decimals. -/
def roundTo (k : Nat) (q : ℚ) : ℚ :=
  ((if q < 0 then -ratRoundHalfUp (|q| * 10 ^ k) else ratRoundHalfUp (|q| * 10 ^ k) : ℤ) : ℚ)
    / 10 ^ k

/-- getDirection of the source: hemisphere letter from sign and axis, zero
counting as non-negative. -/
def getDirection (value : ℚ) (isLatitude : Bool) : Char :=
  if isLatitude then (if 0 ≤ value then 'N' else 'S')
  else (if 0 ≤ value then 'E' else 'W')

/-- decimalToDMS of the source: floor out degrees and minutes, print seconds
with toFixed(2); the seconds rounding is never carried into the minutes. -/
def decimalToDMS (decimal : ℚ) (isLatitude : Bool) : List Char :=
  let absolute := |decimal|
  let degrees : ℕ := (⌊absolute⌋).toNat
  let minutesFloat := (absolute - (degrees : ℚ)) * 60
  let minutes : ℕ := (⌊minutesFloat⌋).toNat
  let seconds := (minutesFloat - (minutes : ℚ)) * 60
  natDigits degrees ++ '°' :: (natDigits minutes ++ apos ::
    (toFixed 2 seconds ++ [quot, getDirection decimal isLatitude]))

/-- decimalToDDM of the source: floor out degrees, print decimal minutes with
toFixed(3). -/
def decimalToDDM (decimal : ℚ) (isLatitude : Bool) : List Char :=
  let absolute := |decimal|
  let degrees : ℕ := (⌊absolute⌋).toNat
  let minutes := (absolute - (degrees : ℚ)) * 60
  natDigits degrees ++ '°' :: (toFixed 3 minutes ++ [apos, getDirection decimal isLatitude])

/-- formatCoordinates of the source; the default switch branch coincides with
the decimal-degrees branch, so the closed three-value enumeration covers it. -/
def formatCoordinates (coordinates : GeojumpCoordinates) (format : CoordinateFormat) :
    String :=
  match format with
  | .DECIMAL_DEGREES =>
    String.mk (toFixed 6 coordinates.lat ++ ',' :: ' ' :: toFixed 6 coordinates.lon)
  | .DEGREES_MINUTES_SECONDS =>
    String.mk (decimalToDMS coordinates.lat true ++ ' ' :: decimalToDMS coordinates.lon false)
  | .DEGREES_DECIMAL_MINUTES =>
    String.mk (decimalToDDM coordinates.lat true ++ ' ' :: decimalToDDM coordinates.lon false)

/-- Outcome record of validateInput. -/
structure ValidationResult where
  isValid : Bool
  error : Option String := none
  deriving DecidableEq

/-- The single format error message of validateInput. -/
def invalidFormatMsg : String :=
  "Invalid coordinate format. Try: \"37.773972, -122.431297\", \"37.7749° N, 122.4194° W\", or \"40°42\u002746\"N 74°0\u002721\"W\""

/-- validateInput of the source: empty or blank input gets its own message;
any other parse failure gets the one generic format message. -/
def validateInput (input : String) : ValidationResult :=
  if input.data = [] ∨ (jsTrim input.data).length = 0 then
    ⟨false, some "Please enter coordinates"⟩
  else
    match parseCoordinates input with
    | none => ⟨false, some invalidFormatMsg⟩
    | some _ => ⟨true, none⟩

/-- Claim C1: the claim expects parse of the DMS string 40°42(min)46(sec)N
74°0(min)21(sec)W to return latitude within one thousandth of 40.7128 and
longitude within one thousandth of -74.0058. The code instead lets the bare
decimal notation capture this string: split on comma-or-whitespace yields two
tokens, parseFloat reads the degree prefixes 40 and 74, both pass range
validation, so parse returns latitude 40 and longitude plus 74 (the west sign
is lost). This theorem evaluates the code at the failing input and records the
divergence from the claimed values. -/
theorem C1_dms_input_captured_by_bare_decimal :
    parseCoordinates "40°42\u002746\"N 74°0\u002721\"W" = some ⟨40, 74, none⟩ ∧
    ¬ |(40 : ℚ) - 40.7128| ≤ 1 / 1000 ∧
    ¬ |(74 : ℚ) - (-74.0058)| ≤ 1 / 1000 := by
  refine ⟨by decide, by decide, by decide⟩

/-- Claim C2 counterexample: the claim states every Coordinate returned by
parse is in geographic range. The DMS notation performs no range validation on
its computed result, so parse of 91°0(min)0(sec)N 0°0(min)0(sec)E returns a
Coordinate with latitude 91, which exceeds 90. -/
theorem C2_cex_dms_out_of_range_returned :
    parseCoordinates "91°0\u00270\"N 0°0\u00270\"E" = some ⟨91, 0, none⟩ ∧
    ¬ ((91 : ℚ) ≤ 90) := by
  refine ⟨by decide, by decide⟩

/-- Claim C3 counterexample: the claim states that the failure for
structurally matched but out-of-range text is distinguishable from the
failure for unmatched text and carries the numeric value. In the code both
inputs produce the identical outcome: parseCoordinates returns none and
validateInput returns the same record with the same generic message. -/
theorem C3_cex_failures_indistinguishable :
    validateInput "91, 0" = validateInput "invalid coordinates" ∧
    parseCoordinates "91, 0" = none ∧
    parseCoordinates "invalid coordinates" = none := by
  refine ⟨by decide, by decide, by decide⟩

/-- Claim C3 (corrected): all non-empty parse failures collapse to a single
outcome; out-of-range text such as 91, 0 and unmatched text such as
invalid coordinates both yield none from parseCoordinates and the identical
generic error record from validateInput, with no numeric value carried. -/
theorem C3_single_failure_outcome :
    validateInput "91, 0" = ⟨false, some invalidFormatMsg⟩ ∧
    validateInput "invalid coordinates" = ⟨false, some invalidFormatMsg⟩ ∧
    validateInput "" = ⟨false, some "Please enter coordinates"⟩ := by
  refine ⟨by decide, by decide, by decide⟩

/-- Claim C5: range boundaries are inclusive and the antimeridian values stay
distinct: the poles parse, latitude 91 fails, longitudes 180 and -180 both
parse and are distinct values, longitude 181 fails. -/
theorem C5_boundaries_inclusive_antimeridian_distinct :
    parseCoordinates "90, 0" = some ⟨90, 0, none⟩ ∧
    parseCoordinates "91, 0" = none ∧
    parseCoordinates "0, 180" = some ⟨0, 180, none⟩ ∧
    parseCoordinates "0, -180" = some ⟨0, -180, none⟩ ∧
    parseCoordinates "0, 181" = none ∧
    (⟨0, 180, none⟩ : GeojumpCoordinates) ≠ ⟨0, -180, none⟩ := by
  refine ⟨by decide, by decide, by decide, by decide, by decide, by decide⟩

/-- Claim C7: in the symbol notation the sign of each component is fixed
solely by its cardinal letter: S and W negate the unsigned magnitude, N and E
leave it positive; an explicit minus sign in the text is ignored (the match
starts after it); the spec example parses to latitude 37.7749 and longitude
-122.4194. -/
theorem C7_cardinal_letter_determines_sign :
    parseCoordinates "37.7749° N, 122.4194° W" =
      some ⟨37.7749, -122.4194, none⟩ ∧
    parseCoordinates "-37.7749° N, 122.4194° W" =
      some ⟨37.7749, -122.4194, none⟩ ∧
    ∀ v : ℚ,
      applyDirection v 'S' true = -|v| ∧ applyDirection v 'N' true = |v| ∧
      applyDirection v 'W' false = -|v| ∧ applyDirection v 'E' false = |v| := by
  refine ⟨by decide, by decide, fun v => ?_⟩
  refine ⟨by simp [applyDirection], by simp [applyDirection], by simp [applyDirection],
    by simp [applyDirection]⟩

/-- Claim C10: formatting latitude 40.99999999 in DMS prints the seconds
field as 60.00: toFixed rounds 59.999964 up to 60.00 and the carry is never
propagated into the minutes value, so the emitted group is
40°59(min)60.00(sec)N rather than 41°0(min)0.00(sec)N. -/
theorem C10_seconds_round_to_sixty_not_carried :
    formatCoordinates ⟨40.99999999, 0, none⟩ CoordinateFormat.DEGREES_MINUTES_SECONDS =
      "40°59\u002760.00\"N 0°0\u00270.00\"E" ∧
    decimalToDMS 40.99999999 true = "40°59\u002760.00\"N".data := by
  refine ⟨by decide, by decide⟩

/-- A successful bare-decimal parse only ever returns a range-validated
coordinate: the success branch is guarded by both validators. -/
theorem parseDecimalDegrees_in_range {s : List Char} {c : GeojumpCoordinates}
    (h : parseDecimalDegrees s = some c) :
    -90 ≤ c.lat ∧ c.lat ≤ 90 ∧ -180 ≤ c.lon ∧ c.lon ≤ 180 := by
  unfold parseDecimalDegrees at h
  split at h
  · split at h
    · split at h
      · cases h
        rename_i hv
        simp only [Bool.and_eq_true, isValidLatitude, isValidLongitude,
          decide_eq_true_eq] at hv
        exact ⟨hv.1.1, hv.1.2, hv.2.1, hv.2.2⟩
      · exact Option.noConfusion h
    · exact Option.noConfusion h
  · exact Option.noConfusion h

/-- A successful symbol-notation computation only ever returns a
range-validated coordinate. -/
theorem symCompute_in_range {a b d e : List Char} {c : GeojumpCoordinates}
    (h : symCompute a b d e = some c) :
    -90 ≤ c.lat ∧ c.lat ≤ 90 ∧ -180 ≤ c.lon ∧ c.lon ≤ 180 := by
  unfold symCompute at h
  split at h
  · split at h
    · cases h
      rename_i hv
      simp only [Bool.and_eq_true, isValidLatitude, isValidLongitude,
        decide_eq_true_eq] at hv
      exact ⟨hv.1.1, hv.1.2, hv.2.1, hv.2.2⟩
    · exact Option.noConfusion h
  · exact Option.noConfusion h

/-- A success of the first symbol pattern attempt is range-validated. -/
theorem symMatch1_in_range {s : List Char} {c : GeojumpCoordinates}
    (h : symMatch1 s = some c) :
    -90 ≤ c.lat ∧ c.lat ≤ 90 ∧ -180 ≤ c.lon ∧ c.lon ≤ 180 := by
  unfold symMatch1 at h
  split at h
  · exact symCompute_in_range h
  · exact Option.noConfusion h

/-- A success of the second symbol pattern attempt is range-validated. -/
theorem symMatch2_in_range {s : List Char} {c : GeojumpCoordinates}
    (h : symMatch2 s = some c) :
    -90 ≤ c.lat ∧ c.lat ≤ 90 ∧ -180 ≤ c.lon ∧ c.lon ≤ 180 := by
  unfold symMatch2 at h
  split at h
  · exact symCompute_in_range h
  · exact Option.noConfusion h

/-- A successful symbol-notation parse only ever returns a range-validated
coordinate (both patterns funnel through symCompute). -/
theorem parseDecimalDegreesWithSymbols_in_range {s : List Char}
    {c : GeojumpCoordinates} (h : parseDecimalDegreesWithSymbols s = some c) :
    -90 ≤ c.lat ∧ c.lat ≤ 90 ∧ -180 ≤ c.lon ∧ c.lon ≤ 180 := by
  unfold parseDecimalDegreesWithSymbols at h
  split at h
  · rename_i r h1
    cases h
    exact symMatch1_in_range h1
  · exact symMatch2_in_range h

/-- Claim C2 (corrected): range validation guards the bare-decimal and
symbol notations, but the DMS and DDM notations return their computed values
without any range validation, so parse can return an out-of-range coordinate:
parse of 91°0(min)0(sec)N 0°0(min)0(sec)E returns latitude 91. -/
theorem C2_range_validation_partial :
    (∀ (s : List Char) (c : GeojumpCoordinates), parseDecimalDegrees s = some c →
      -90 ≤ c.lat ∧ c.lat ≤ 90 ∧ -180 ≤ c.lon ∧ c.lon ≤ 180) ∧
    (∀ (s : List Char) (c : GeojumpCoordinates),
      parseDecimalDegreesWithSymbols s = some c →
      -90 ≤ c.lat ∧ c.lat ≤ 90 ∧ -180 ≤ c.lon ∧ c.lon ≤ 180) ∧
    parseCoordinates "91°0\u00270\"N 0°0\u00270\"E" = some ⟨91, 0, none⟩ :=
  ⟨fun _ _ h => parseDecimalDegrees_in_range h,
   fun _ _ h => parseDecimalDegreesWithSymbols_in_range h, by decide⟩

/-- Witness for C2: the range bounds hold for the coordinate the bare decimal
notation returns on the reference input. -/
theorem C2_range_validation_partial_witness :
    -90 ≤ (40.7128 : ℚ) ∧ (40.7128 : ℚ) ≤ 90 ∧
    -180 ≤ (-74.0060 : ℚ) ∧ (-74.0060 : ℚ) ≤ 180 :=
  C2_range_validation_partial.1 "40.7128, -74.0060".data
    ⟨40.7128, -74.0060, none⟩ (by decide)

/-- Claim C6: dmsToDecimal is invalid exactly when a component is negative or
minutes or seconds reach 60; otherwise it returns degrees plus minutes over
sixty plus seconds over thirty-six hundred, negated exactly for S and W. -/
theorem C6_dmsToDecimal_domain_and_value (d m s : ℚ) (dir : Char) :
    (dmsToDecimal d m s dir = none ↔
      d < 0 ∨ m < 0 ∨ s < 0 ∨ 60 ≤ m ∨ 60 ≤ s) ∧
    (¬(d < 0 ∨ m < 0 ∨ s < 0 ∨ 60 ≤ m ∨ 60 ≤ s) →
      dmsToDecimal d m s dir =
        some (if dir = 'S' ∨ dir = 'W' then -(d + m / 60 + s / 3600)
          else d + m / 60 + s / 3600)) := by
  unfold dmsToDecimal
  constructor
  · split
    · simp_all
    · simp_all
  · intro h
    rw [if_neg h]

/-- Witness for C6: the conversion of 40 degrees 42 minutes 46 seconds north. -/
theorem C6_dmsToDecimal_domain_and_value_witness :
    dmsToDecimal 40 42 46 'N' =
      some (if ('N' : Char) = 'S' ∨ ('N' : Char) = 'W'
        then -((40 : ℚ) + 42 / 60 + 46 / 3600)
        else (40 : ℚ) + 42 / 60 + 46 / 3600) :=
  (C6_dmsToDecimal_domain_and_value 40 42 46 'N').2 (by decide)

/-- Claim C8: the bare decimal notation rejects any input whose split does not
yield exactly two tokens; in particular a single number fails overall and a
three-token input fails overall. -/
theorem C8_bare_decimal_requires_exactly_two_tokens :
    (∀ s : List Char, (splitSep isSep (collapseWS s)).length ≠ 2 →
      parseDecimalDegrees s = none) ∧
    parseCoordinates "40.7128" = none ∧
    parseCoordinates "1 2 3" = none := by
  refine ⟨?_, by decide, by decide⟩
  intro s h
  unfold parseDecimalDegrees
  rcases hsp : splitSep isSep (collapseWS s) with _ | ⟨p0, t0⟩
  · rfl
  · rcases t0 with _ | ⟨p1, t1⟩
    · rfl
    · rcases t1 with _ | ⟨p2, t2⟩
      · exact absurd (by rw [hsp]; rfl) h
      · rfl

/-- Witness for C8: the single token 40.7128 splits into one token and the
bare decimal notation rejects it. -/
theorem C8_bare_decimal_requires_exactly_two_tokens_witness :
    parseDecimalDegrees "40.7128".data = none :=
  C8_bare_decimal_requires_exactly_two_tokens.1 "40.7128".data (by decide)

/-- Reading digits out of an appended list: as long as the appended part does
not begin with a digit, it is carried through untouched. -/
theorem readDigits_append (l junk : List Char) (acc cnt : Nat)
    (hj : ∀ c, junk.head? = some c → c.isDigit = false) :
    readDigits (l ++ junk) acc cnt =
      ((readDigits l acc cnt).1, (readDigits l acc cnt).2.1,
        (readDigits l acc cnt).2.2 ++ junk) := by
  induction l generalizing acc cnt with
  | nil =>
    cases junk with
    | nil => rfl
    | cons c r =>
      simp only [List.nil_append, readDigits]
      rw [if_neg (by simp [hj c rfl])]
  | cons c r ih =>
    simp only [List.cons_append, readDigits]
    by_cases hc : c.isDigit = true
    · simp only [if_pos hc]
      exact ih _ _
    · simp only [if_neg hc]
      rfl

/-- The rest returned by readDigits is made of characters of the input. -/
theorem readDigits_rest_subset (l : List Char) (acc cnt : Nat) :
    ∀ c ∈ (readDigits l acc cnt).2.2, c ∈ l := by
  induction l generalizing acc cnt with
  | nil => simp [readDigits]
  | cons a r ih =>
    simp only [readDigits]
    by_cases h : a.isDigit = true
    · rw [if_pos h]
      intro c hc
      exact List.mem_cons_of_mem a (ih _ _ c hc)
    · rw [if_neg h]
      intro c hc
      exact hc

/-- Stripping the sign of an appended list, when the front part is nonempty. -/
theorem stripSign_append (l junk : List Char) (h : l ≠ []) :
    stripSign (l ++ junk) = ((stripSign l).1, (stripSign l).2 ++ junk) := by
  cases l with
  | nil => exact absurd rfl h
  | cons c r =>
    simp only [List.cons_append, stripSign]
    by_cases h1 : c = '-'
    · rw [if_pos h1, if_pos h1]
    · rw [if_neg h1, if_neg h1]
      by_cases h2 : c = '+'
      · rw [if_pos h2, if_pos h2]
      · rw [if_neg h2, if_neg h2]
        rfl

/-- The rest returned by stripSign is made of characters of the input. -/
theorem stripSign_snd_subset (l : List Char) : ∀ c ∈ (stripSign l).2, c ∈ l := by
  cases l with
  | nil => simp [stripSign]
  | cons c r =>
    simp only [stripSign]
    by_cases h1 : c = '-'
    · rw [if_pos h1]
      intro x hx
      exact List.mem_cons_of_mem c hx
    · rw [if_neg h1]
      by_cases h2 : c = '+'
      · rw [if_pos h2]
        intro x hx
        exact List.mem_cons_of_mem c hx
      · rw [if_neg h2]
        intro x hx
        exact hx

/-- An exponent part can only start with e or E. -/
theorem readExp_none_of_head (l : List Char)
    (h : ∀ c, l.head? = some c → c ≠ 'e' ∧ c ≠ 'E') : readExp l = none := by
  cases l with
  | nil => rfl
  | cons c r =>
    simp only [readExp]
    rw [if_neg]
    rcases h c rfl with ⟨h1, h2⟩
    rintro (h3 | h3)
    · exact h1 h3
    · exact h2 h3

/-- parseFloat is NaN on input that is nothing but whitespace. -/
theorem parseFloatAux_ws_nil (t : List Char) (h : t.dropWhile isWS = []) :
    parseFloatAux t = none := by
  unfold parseFloatAux
  rw [h]
  rfl

/-- Core of the longest-prefix property: if the digit phase consumed the whole
token, appending junk that cannot extend the number (no digit, no dot, no
exponent letter at its head) leaves the value unchanged and the junk
unconsumed. The token itself must be exponent-free. -/
theorem pfBody_append (neg : Bool) (w junk : List Char) (q : ℚ)
    (ht : pfBody neg w = some (q, []))
    (hw : ∀ c ∈ w, c ≠ 'e' ∧ c ≠ 'E')
    (hj : ∀ c, junk.head? = some c →
      c.isDigit = false ∧ c ≠ '.' ∧ c ≠ 'e' ∧ c ≠ 'E') :
    pfBody neg (w ++ junk) = some (q, junk) := by
  have hjd : ∀ c, junk.head? = some c → c.isDigit = false := fun c hc => (hj c hc).1
  have hexp : readExp junk = none :=
    readExp_none_of_head junk (fun x hx => ⟨(hj x hx).2.2.1, (hj x hx).2.2.2⟩)
  rcases h1 : readDigits w 0 0 with ⟨ip, ic, s3⟩
  unfold pfBody at ht ⊢
  rw [h1] at ht
  rw [readDigits_append w junk 0 0 hjd, h1]
  dsimp only at ht ⊢
  cases s3 with
  | nil =>
    simp only [List.nil_append]
    by_cases hic : ic = 0
    · rw [if_pos hic] at ht
      exact Option.noConfusion ht
    · rw [if_neg hic] at ht
      unfold pfFinish at ht
      rw [show readExp [] = none from rfl] at ht
      injection ht with ht1
      injection ht1 with ht2 ht3
      subst ht2
      cases junk with
      | nil =>
        rw [if_neg hic]
        unfold pfFinish
        rw [show readExp [] = none from rfl]
      | cons c r =>
        rcases hj c rfl with ⟨hd, hdot, he1, he2⟩
        dsimp only
        rw [if_neg hdot, if_neg hic]
        unfold pfFinish
        rw [hexp]
  | cons c r =>
    have hcw : c ∈ w :=
      readDigits_rest_subset w 0 0 c (by rw [h1]; exact List.mem_cons_self c r)
    have hrw : ∀ x ∈ r, x ∈ w := fun x hx =>
      readDigits_rest_subset w 0 0 x (by rw [h1]; exact List.mem_cons_of_mem c hx)
    simp only [List.cons_append]
    dsimp only at ht
    by_cases hdot : c = '.'
    · rw [if_pos hdot] at ht ⊢
      rcases h2 : readDigits r 0 0 with ⟨fp, fc, s4⟩
      rw [h2] at ht
      rw [readDigits_append r junk 0 0 hjd, h2]
      dsimp only at ht ⊢
      by_cases hz : ic = 0 ∧ fc = 0
      · rw [if_pos hz] at ht
        exact Option.noConfusion ht
      · rw [if_neg hz] at ht ⊢
        have hs4w : ∀ x ∈ s4, x ∈ w := fun x hx =>
          hrw x (readDigits_rest_subset r 0 0 x (by rw [h2]; exact hx))
        unfold pfFinish at ht
        rw [readExp_none_of_head s4
          (by
            intro x hx
            have hxs4 : x ∈ s4 := by
              cases s4 with
              | nil => exact Option.noConfusion hx
              | cons a b =>
                injection hx with hx1
                subst hx1
                exact List.mem_cons_self a b
            exact hw x (hs4w x hxs4))] at ht
        injection ht with ht1
        injection ht1 with ht2 ht3
        subst ht2
        subst ht3
        unfold pfFinish
        simp only [List.nil_append]
        rw [hexp]
    · rw [if_neg hdot] at ht ⊢
      by_cases hic : ic = 0
      · rw [if_pos hic] at ht
        exact Option.noConfusion ht
      · rw [if_neg hic] at ht
        unfold pfFinish at ht
        rw [readExp_none_of_head (c :: r)
          (by
            intro x hx
            injection hx with hx1
            subst hx1
            exact hw _ hcw)] at ht
        injection ht with ht1
        injection ht1 with ht2 ht3
        exact List.noConfusion ht3

/-- The longest-prefix property lifted over the whitespace and sign phases:
a fully consumed exponent-free token keeps its parseFloat value when
non-extending junk is appended. -/
theorem parseFloat_append_junk (t junk : List Char) (q : ℚ)
    (ht : parseFloatAux t = some (q, []))
    (he : 'e' ∉ t) (hE : 'E' ∉ t)
    (hj : ∀ c, junk.head? = some c →
      c.isDigit = false ∧ c ≠ '.' ∧ c ≠ 'e' ∧ c ≠ 'E') :
    parseFloat (t ++ junk) = some q := by
  have hw : t.dropWhile isWS ≠ [] := by
    intro h0
    rw [parseFloatAux_ws_nil t h0] at ht
    exact Option.noConfusion ht
  have hda : (t ++ junk).dropWhile isWS = t.dropWhile isWS ++ junk := by
    rw [List.dropWhile_append, if_neg]
    intro h0
    exact hw (List.isEmpty_iff.mp h0)
  have hss : stripSign (t.dropWhile isWS ++ junk) =
      ((stripSign (t.dropWhile isWS)).1, (stripSign (t.dropWhile isWS)).2 ++ junk) :=
    stripSign_append _ junk hw
  have hsub : ∀ c ∈ (stripSign (t.dropWhile isWS)).2, c ≠ 'e' ∧ c ≠ 'E' := by
    intro c hc
    have hct : c ∈ t := List.dropWhile_subset isWS (stripSign_snd_subset _ c hc)
    exact ⟨fun h => he (h ▸ hct), fun h => hE (h ▸ hct)⟩
  unfold parseFloatAux at ht
  unfold parseFloat parseFloatAux
  rw [hda, hss]
  dsimp only
  rw [pfBody_append _ _ junk q ht hsub hj]
  rfl

/-- Claim C9: each bare-decimal token is converted by its longest leading
numeric prefix (parseFloat semantics): trailing junk after the number is
accepted with the prefix value, as in the example, and a token is rejected
only when it has no numeric prefix at all. -/
theorem C9_parseFloat_longest_numeric_run :
    parseCoordinates "40.7128abc, -74.0060xyz" = some ⟨40.7128, -74.0060, none⟩ ∧
    parseCoordinates "abc, 5" = none ∧
    (∀ (t junk : List Char) (q : ℚ), parseFloatAux t = some (q, []) →
      'e' ∉ t → 'E' ∉ t →
      (∀ c, junk.head? = some c →
        c.isDigit = false ∧ c ≠ '.' ∧ c ≠ 'e' ∧ c ≠ 'E') →
      parseFloat (t ++ junk) = some q) :=
  ⟨by decide, by decide, parseFloat_append_junk⟩

/-- Witness for C9: appending the junk abc to the token 40.7128 leaves the
parseFloat value at 40.7128. -/
theorem C9_parseFloat_longest_numeric_run_witness :
    parseFloat ("40.7128".data ++ "abc".data) = some 40.7128 :=
  C9_parseFloat_longest_numeric_run.2.2 "40.7128".data "abc".data 40.7128
    (by decide) (by decide) (by decide) (by decide)

/-- A whitespace character is one of six concrete characters. -/
theorem ws_char_cases {c : Char} (h : isWS c = true) :
    c = ' ' ∨ c = '\t' ∨ c = '\n' ∨ c = '\r' ∨ c = '\x0b' ∨ c = '\x0c' := by
  simp only [isWS, Bool.or_eq_true, beq_iff_eq] at h
  tauto

/-- Digits are not whitespace. -/
theorem not_ws_of_isDigit {c : Char} (h : c.isDigit = true) : isWS c = false := by
  rcases Bool.eq_false_or_eq_true (isWS c) with h0 | h0
  · rcases ws_char_cases h0 with rfl | rfl | rfl | rfl | rfl | rfl <;>
      exact absurd h (by decide)
  · exact h0

/-- Digits are not separators. -/
theorem not_sep_of_isDigit {c : Char} (h : c.isDigit = true) : isSep c = false := by
  simp only [isSep, Bool.or_eq_false_iff]
  refine ⟨?_, not_ws_of_isDigit h⟩
  rcases Bool.eq_false_or_eq_true (c == ',') with h0 | h0
  · rw [beq_iff_eq] at h0
    subst h0
    exact absurd h (by decide)
  · exact h0

/-- Digits are not the minus sign. -/
theorem ne_minus_of_isDigit {c : Char} (h : c.isDigit = true) : c ≠ '-' := by
  rintro rfl
  exact absurd h (by decide)

/-- Digits are not the plus sign. -/
theorem ne_plus_of_isDigit {c : Char} (h : c.isDigit = true) : c ≠ '+' := by
  rintro rfl
  exact absurd h (by decide)

/-- Every entry of the fuelled digit list is below ten. -/
theorem digitsLE_lt (fuel : Nat) : ∀ n d, d ∈ digitsLE fuel n → d < 10 := by
  induction fuel with
  | zero =>
    intro n d hd
    simp [digitsLE] at hd
  | succ f ih =>
    intro n d hd
    unfold digitsLE at hd
    by_cases h0 : n = 0
    · rw [if_pos h0] at hd
      simp at hd
    · rw [if_neg h0] at hd
      rcases List.mem_cons.mp hd with rfl | hd
      · exact Nat.mod_lt _ (by norm_num)
      · exact ih _ _ hd

/-- The digit character of a digit below ten is a digit character. -/
theorem dCh_isDigit {d : Nat} (h : d < 10) : (dCh d).isDigit = true := by
  interval_cases d <;> decide

/-- The digit character of a digit below ten decodes back to the digit. -/
theorem dCh_toNat {d : Nat} (h : d < 10) : (dCh d).toNat - 48 = d := by
  interval_cases d <;> decide

/-- Every character printed by natDigits is a digit. -/
theorem natDigits_all_digit (n : Nat) : ∀ c ∈ natDigits n, c.isDigit = true := by
  unfold natDigits
  by_cases h0 : n = 0
  · rw [if_pos h0]
    intro c hc
    rcases List.mem_singleton.mp hc with rfl
    decide
  · rw [if_neg h0]
    intro c hc
    rcases List.mem_map.mp hc with ⟨d, hd, rfl⟩
    exact dCh_isDigit (digitsLE_lt n n d (List.mem_reverse.mp hd))

/-- natDigits never prints the empty list. -/
theorem natDigits_ne_nil (n : Nat) : natDigits n ≠ [] := by
  unfold natDigits
  by_cases h0 : n = 0
  · rw [if_pos h0]
    simp
  · rw [if_neg h0]
    cases n with
    | zero => exact absurd rfl h0
    | succ m =>
      unfold digitsLE
      rw [if_neg h0]
      simp

/-- Value of a digit list continued after an accumulator, split at an append. -/
theorem valD_append (a b : List Char) (acc : Nat) :
    valD (a ++ b) acc = valD b (valD a acc) := by
  unfold valD
  exact List.foldl_append _ _ _ _

/-- Value of the fuelled digit list printed in reverse. -/
theorem valD_digitsLE (fuel : Nat) : ∀ n acc, n ≤ fuel →
    valD ((digitsLE fuel n).reverse.map dCh) acc =
      acc * 10 ^ (digitsLE fuel n).length + n := by
  induction fuel with
  | zero =>
    intro n acc h
    interval_cases n
    show valD ((digitsLE 0 0).reverse.map dCh) acc =
      acc * 10 ^ (digitsLE 0 0).length + 0
    rw [show digitsLE 0 0 = [] from rfl]
    simp [valD]
  | succ f ih =>
    intro n acc h
    by_cases h0 : n = 0
    · subst h0
      rw [show digitsLE (f + 1) 0 = [] by unfold digitsLE; rw [if_pos rfl]]
      simp [valD]
    · have hstep : digitsLE (f + 1) n = n % 10 :: digitsLE f (n / 10) := by
        conv_lhs => unfold digitsLE
        rw [if_neg h0]
      rw [hstep]
      have hle : n / 10 ≤ f := by
        have h1 : n / 10 < n := Nat.div_lt_self (Nat.pos_of_ne_zero h0) (by norm_num)
        omega
      have hmod : (dCh (n % 10)).toNat - 48 = n % 10 :=
        dCh_toNat (Nat.mod_lt _ (by norm_num))
      have hDM : 10 * (n / 10) + n % 10 = n := Nat.div_add_mod n 10
      simp only [List.reverse_cons, List.map_append, List.map_cons, List.map_nil]
      rw [valD_append, ih (n / 10) acc hle]
      show 10 * (acc * 10 ^ (digitsLE f (n / 10)).length + n / 10) +
          ((dCh (n % 10)).toNat - 48) =
        acc * 10 ^ (n % 10 :: digitsLE f (n / 10)).length + n
      rw [hmod, List.length_cons, pow_succ]
      calc 10 * (acc * 10 ^ (digitsLE f (n / 10)).length + n / 10) + n % 10
          = acc * (10 ^ (digitsLE f (n / 10)).length * 10) +
              (10 * (n / 10) + n % 10) := by ring
        _ = acc * (10 ^ (digitsLE f (n / 10)).length * 10) + n := by rw [hDM]

/-- Value of the printed decimal notation of a natural number. -/
theorem valD_natDigits (n acc : Nat) :
    valD (natDigits n) acc = acc * 10 ^ (natDigits n).length + n := by
  unfold natDigits
  by_cases h0 : n = 0
  · subst h0
    rw [if_pos rfl]
    show 10 * acc + ('0'.toNat - 48) = acc * 10 ^ 1 + 0
    rw [show ('0'.toNat - 48) = 0 from rfl]
    ring
  · rw [if_neg h0]
    rw [valD_digitsLE n n acc le_rfl]
    simp

/-- Length bound of the fuelled digit list. -/
theorem digitsLE_length_le (fuel : Nat) : ∀ n k, n ≤ fuel → n < 10 ^ k →
    (digitsLE fuel n).length ≤ k := by
  induction fuel with
  | zero =>
    intro n k h hk
    interval_cases n
    simp [digitsLE]
  | succ f ih =>
    intro n k h hk
    by_cases h0 : n = 0
    · subst h0
      rw [show digitsLE (f + 1) 0 = [] by unfold digitsLE; rw [if_pos rfl]]
      simp
    · have hstep : digitsLE (f + 1) n = n % 10 :: digitsLE f (n / 10) := by
        conv_lhs => unfold digitsLE
        rw [if_neg h0]
      rw [hstep, List.length_cons]
      have hk1 : 1 ≤ k := by
        by_contra hc
        push_neg at hc
        interval_cases k
        omega
      obtain ⟨k1, rfl⟩ : ∃ k1, k = k1 + 1 := ⟨k - 1, by omega⟩
      have hle : n / 10 ≤ f := by
        have h1 : n / 10 < n := Nat.div_lt_self (Nat.pos_of_ne_zero h0) (by norm_num)
        omega
      have hlt : n / 10 < 10 ^ k1 := by
        rw [Nat.div_lt_iff_lt_mul (by norm_num : 0 < 10)]
        calc n < 10 ^ (k1 + 1) := hk
          _ = 10 ^ k1 * 10 := by rw [pow_succ]
      have := ih (n / 10) k1 hle hlt
      omega

/-- Length bound of the printed decimal notation. -/
theorem natDigits_length_le {n k : Nat} (hk : 1 ≤ k) (h : n < 10 ^ k) :
    (natDigits n).length ≤ k := by
  unfold natDigits
  by_cases h0 : n = 0
  · rw [if_pos h0]
    simpa using hk
  · rw [if_neg h0]
    simpa using digitsLE_length_le n n k le_rfl h

/-- The zero padding contributes nothing to the value of a digit list. -/
theorem valD_replicate_zero (z acc : Nat) :
    valD (List.replicate z '0') acc = acc * 10 ^ z := by
  induction z generalizing acc with
  | zero => simp [valD]
  | succ z1 ih =>
    rw [List.replicate_succ]
    show valD (List.replicate z1 '0') (10 * acc + ('0'.toNat - 48)) = acc * 10 ^ (z1 + 1)
    rw [ih, show ('0'.toNat - 48) = 0 from rfl]
    ring

/-- The padded digit list has exactly the requested width. -/
theorem padDigits_length {k m : Nat} (hk : 1 ≤ k) (h : m < 10 ^ k) :
    (padDigits k m).length = k := by
  unfold padDigits
  have := natDigits_length_le hk h
  simp only [List.length_append, List.length_replicate]
  omega

/-- The padded digit list decodes to the padded number. -/
theorem valD_padDigits {k m : Nat} : valD (padDigits k m) 0 = m := by
  unfold padDigits
  rw [valD_append, valD_replicate_zero, zero_mul, valD_natDigits, zero_mul, zero_add]

/-- Every character of the padded digit list is a digit. -/
theorem padDigits_all_digit (k m : Nat) : ∀ c ∈ padDigits k m, c.isDigit = true := by
  unfold padDigits
  intro c hc
  rcases List.mem_append.mp hc with hc | hc
  · rcases List.eq_of_mem_replicate hc with rfl
    decide
  · exact natDigits_all_digit m c hc

/-- The padded digit list is nonempty. -/
theorem padDigits_ne_nil (k m : Nat) : padDigits k m ≠ [] := by
  unfold padDigits
  intro h
  rcases List.append_eq_nil.mp h with ⟨h1, h2⟩
  exact natDigits_ne_nil m h2

/-- Reading a digit run that ends at a non-digit boundary: the whole run is
consumed and decoded. -/
theorem readDigits_digit_run_exact (ds rest : List Char) (acc cnt : Nat)
    (hds : ∀ c ∈ ds, c.isDigit = true)
    (hrest : ∀ c, rest.head? = some c → c.isDigit = false) :
    readDigits (ds ++ rest) acc cnt = (valD ds acc, cnt + ds.length, rest) := by
  induction ds generalizing acc cnt with
  | nil =>
    cases rest with
    | nil => simp [readDigits, valD]
    | cons c r =>
      simp only [List.nil_append, readDigits]
      rw [if_neg (by simp [hrest c rfl])]
      simp [valD]
  | cons c ds1 ih =>
    have hc : c.isDigit = true := hds c (List.mem_cons_self c ds1)
    simp only [List.cons_append, readDigits]
    rw [if_pos hc]
    show readDigits (ds1 ++ rest) (10 * acc + (c.toNat - 48)) (cnt + 1) =
      (valD (c :: ds1) acc, cnt + (c :: ds1).length, rest)
    rw [ih _ _ (fun x hx => hds x (List.mem_cons_of_mem c hx))]
    show (valD ds1 (10 * acc + (c.toNat - 48)), cnt + 1 + ds1.length, rest) =
      (valD (c :: ds1) acc, cnt + (c :: ds1).length, rest)
    rw [List.length_cons]
    have hcnt : cnt + 1 + ds1.length = cnt + (ds1.length + 1) := by omega
    rw [hcnt]
    exact congrArg (fun v => (v, cnt + (ds1.length + 1), rest)) rfl

/-- Evaluation of the parseFloat digit phase on a printed fixed-point numeral:
integer digits, a dot, and exactly k padded fraction digits decode to the
printed value, consuming everything. -/
theorem pfBody_digits (neg : Bool) (a b k : Nat) (hk : 1 ≤ k) (hb : b < 10 ^ k) :
    pfBody neg (natDigits a ++ '.' :: padDigits k b) =
      some ((if neg then -((a : ℚ) + (b : ℚ) / (10 : ℚ) ^ k)
        else (a : ℚ) + (b : ℚ) / (10 : ℚ) ^ k), []) := by
  have h1 : readDigits (natDigits a ++ '.' :: padDigits k b) 0 0 =
      (a, 0 + (natDigits a).length, '.' :: padDigits k b) := by
    rw [readDigits_digit_run_exact _ _ _ _ (natDigits_all_digit a)
      (by intro c hc; injection hc with hc1; subst hc1; decide)]
    rw [valD_natDigits]
    norm_num
  have h2 : readDigits (padDigits k b) 0 0 = (b, 0 + k, []) := by
    have h3 := readDigits_digit_run_exact (padDigits k b) [] 0 0 (padDigits_all_digit k b)
      (by intro c hc; exact Option.noConfusion hc)
    rw [List.append_nil] at h3
    rw [h3, valD_padDigits, padDigits_length hk hb]
  unfold pfBody
  rw [h1]
  dsimp only
  rw [if_pos rfl, h2]
  dsimp only
  have hic : ¬(0 + (natDigits a).length = 0 ∧ 0 + k = 0) := by
    rintro ⟨ha0, hk0⟩
    rw [Nat.zero_add] at ha0
    exact natDigits_ne_nil a (List.length_eq_zero.mp ha0)
  rw [if_neg hic]
  unfold pfFinish
  rw [show readExp [] = none from rfl]
  rw [Nat.zero_add]

/-- Splitting a natural number by division against the denominator, in ℚ. -/
theorem natCast_div_add_mod (n k : Nat) :
    ((n / 10 ^ k : ℕ) : ℚ) + ((n % 10 ^ k : ℕ) : ℚ) / (10 : ℚ) ^ k =
      (n : ℚ) / (10 : ℚ) ^ k := by
  have h10 : (0 : ℚ) < 10 ^ k := by positivity
  have hdm : (n / 10 ^ k) * 10 ^ k + n % 10 ^ k = n := by
    rw [Nat.mul_comm]
    exact Nat.div_add_mod n (10 ^ k)
  have hcast : ((n / 10 ^ k : ℕ) : ℚ) * (10 : ℚ) ^ k + ((n % 10 ^ k : ℕ) : ℚ) = (n : ℚ) := by
    exact_mod_cast congrArg (fun m : ℕ => (m : ℚ)) hdm
  field_simp
  linarith [hcast]

/-- parseFloat reads the toFixed rendering of a value back exactly, consuming
the whole token, whenever the value is a fixed point of the k-decimal
rounding. -/
theorem parseFloatAux_toFixed (k : Nat) (q : ℚ) (hk : 1 ≤ k) (h : q = roundTo k q) :
    parseFloatAux (toFixed k q) = some (q, []) := by
  have h10 : (0 : ℚ) < 10 ^ k := by positivity
  have hq0 : q = ((if q < 0 then -(ratRoundHalfUp (|q| * 10 ^ k))
      else ratRoundHalfUp (|q| * 10 ^ k) : ℤ) : ℚ) / 10 ^ k := h
  generalize hZdef : (if q < 0 then -(ratRoundHalfUp (|q| * 10 ^ k))
      else ratRoundHalfUp (|q| * 10 ^ k) : ℤ) = Z at hq0
  have habs : |q| * 10 ^ k = ((Z.natAbs : ℚ)) := by
    rw [hq0, abs_div, abs_of_pos h10, div_mul_cancel₀ _ (ne_of_gt h10)]
    simp [Int.cast_natAbs, Int.cast_abs]
  have hround : ratRoundHalfUp (|q| * 10 ^ k) = (Z.natAbs : ℤ) := by
    unfold ratRoundHalfUp
    rw [habs, show ((Z.natAbs : ℚ)) = ((Z.natAbs : ℤ) : ℚ) from (Int.cast_natCast _).symm,
      Int.floor_int_add]
    norm_num
  have hn : (ratRoundHalfUp (|q| * 10 ^ k)).toNat = Z.natAbs := by
    rw [hround]
    exact Int.toNat_natCast _
  have hmod : Z.natAbs % 10 ^ k < 10 ^ k :=
    Nat.mod_lt _ (Nat.pos_pow_of_pos k (by norm_num))
  have hsplit := natCast_div_add_mod Z.natAbs k
  by_cases hneg : q < 0
  · have hZneg : (Z : ℚ) < 0 := by
      by_contra h0
      push_neg at h0
      have := div_nonneg h0 (le_of_lt h10)
      rw [← hq0] at this
      exact absurd this (not_le.mpr hneg)
    have hZq : ((Z.natAbs : ℚ)) = -(Z : ℚ) := by
      rw [Int.cast_natAbs, Int.cast_abs]
      exact abs_of_neg hZneg
    have hqv : q = -((Z.natAbs : ℚ) / 10 ^ k) := by
      rw [hq0, hZq]
      ring
    unfold toFixed parseFloatAux
    rw [hn, if_pos hneg]
    rw [show (['-'] ++ natDigits (Z.natAbs / 10 ^ k) ++
        '.' :: padDigits k (Z.natAbs % 10 ^ k) : List Char)
        = '-' :: (natDigits (Z.natAbs / 10 ^ k) ++
          '.' :: padDigits k (Z.natAbs % 10 ^ k)) from rfl]
    rw [List.dropWhile_cons, if_neg (by decide)]
    rw [show stripSign ('-' :: (natDigits (Z.natAbs / 10 ^ k) ++
        '.' :: padDigits k (Z.natAbs % 10 ^ k)))
        = (true, natDigits (Z.natAbs / 10 ^ k) ++
          '.' :: padDigits k (Z.natAbs % 10 ^ k)) from rfl]
    dsimp only
    rw [pfBody_digits true _ _ k hk hmod]
    rw [if_pos rfl]
    rw [hsplit, ← hqv]
  · have hZnn : (0 : ℚ) ≤ (Z : ℚ) := by
      by_contra h0
      push_neg at h0
      have := div_neg_of_neg_of_pos h0 h10
      rw [← hq0] at this
      exact hneg this
    have hZq : ((Z.natAbs : ℚ)) = (Z : ℚ) := by
      rw [Int.cast_natAbs, Int.cast_abs]
      exact abs_of_nonneg hZnn
    have hqv : q = (Z.natAbs : ℚ) / 10 ^ k := by
      rw [hq0, hZq]
    obtain ⟨c0, rest0, hcons⟩ : ∃ c0 rest0,
        natDigits (Z.natAbs / 10 ^ k) = c0 :: rest0 :=
      List.exists_cons_of_ne_nil (natDigits_ne_nil _)
    have hc0 : c0.isDigit = true := by
      apply natDigits_all_digit
      rw [hcons]
      exact List.mem_cons_self _ _
    unfold toFixed parseFloatAux
    rw [hn, if_neg hneg]
    rw [show (([] : List Char) ++ natDigits (Z.natAbs / 10 ^ k) ++
        '.' :: padDigits k (Z.natAbs % 10 ^ k))
        = natDigits (Z.natAbs / 10 ^ k) ++
          '.' :: padDigits k (Z.natAbs % 10 ^ k) from by rw [List.nil_append]]
    rw [hcons]
    rw [show ((c0 :: rest0) ++ '.' :: padDigits k (Z.natAbs % 10 ^ k))
        = c0 :: (rest0 ++ '.' :: padDigits k (Z.natAbs % 10 ^ k)) from rfl]
    rw [List.dropWhile_cons, if_neg (by rw [not_ws_of_isDigit hc0]; simp)]
    rw [show stripSign (c0 :: (rest0 ++ '.' :: padDigits k (Z.natAbs % 10 ^ k)))
        = (false, c0 :: (rest0 ++ '.' :: padDigits k (Z.natAbs % 10 ^ k))) from by
      dsimp only [stripSign]
      rw [if_neg (ne_minus_of_isDigit hc0), if_neg (ne_plus_of_isDigit hc0)]]
    dsimp only
    rw [show (c0 :: (rest0 ++ '.' :: padDigits k (Z.natAbs % 10 ^ k)))
        = natDigits (Z.natAbs / 10 ^ k) ++
          '.' :: padDigits k (Z.natAbs % 10 ^ k) from by rw [hcons]; rfl]
    rw [pfBody_digits false _ _ k hk hmod]
    rw [if_neg (by simp)]
    rw [hsplit, ← hqv]

/-- Every character of a toFixed rendering is a sign, a dot or a digit. -/
theorem toFixed_chars (k : Nat) (q : ℚ) :
    ∀ c ∈ toFixed k q, c = '-' ∨ c = '.' ∨ c.isDigit = true := by
  unfold toFixed
  intro c hc
  rcases List.mem_append.mp hc with hc1 | hc1
  · rcases List.mem_append.mp hc1 with hc2 | hc2
    · by_cases hq : q < 0
      · rw [if_pos hq] at hc2
        rcases List.mem_singleton.mp hc2 with rfl
        left
        rfl
      · rw [if_neg hq] at hc2
        simp at hc2
    · right
      right
      exact natDigits_all_digit _ c hc2
  · rcases List.mem_cons.mp hc1 with rfl | hc2
    · right
      left
      rfl
    · right
      right
      exact padDigits_all_digit _ _ c hc2

/-- No character of a toFixed rendering is whitespace. -/
theorem toFixed_no_ws (k : Nat) (q : ℚ) : ∀ c ∈ toFixed k q, isWS c = false := by
  intro c hc
  rcases toFixed_chars k q c hc with rfl | rfl | hd
  · decide
  · decide
  · exact not_ws_of_isDigit hd

/-- No character of a toFixed rendering is a split separator. -/
theorem toFixed_no_sep (k : Nat) (q : ℚ) : ∀ c ∈ toFixed k q, isSep c = false := by
  intro c hc
  rcases toFixed_chars k q c hc with rfl | rfl | hd
  · decide
  · decide
  · exact not_sep_of_isDigit hd

/-- A toFixed rendering is never empty. -/
theorem toFixed_ne_nil (k : Nat) (q : ℚ) : toFixed k q ≠ [] := by
  unfold toFixed
  intro h
  rcases List.append_eq_nil.mp h with ⟨h1, h2⟩
  exact List.noConfusion h2

/-- A toFixed rendering read backwards starts with a digit. -/
theorem toFixed_reverse_cons (k : Nat) (q : ℚ) :
    ∃ d rest, (toFixed k q).reverse = d :: rest ∧ d.isDigit = true := by
  obtain ⟨d, pr, hpr⟩ := List.exists_cons_of_ne_nil
    (show (padDigits k ((ratRoundHalfUp (|q| * 10 ^ k)).toNat % 10 ^ k)).reverse ≠ []
      from by
        intro h0
        exact padDigits_ne_nil _ _ (List.reverse_eq_nil_iff.mp h0))
  have hd : d.isDigit = true := by
    apply padDigits_all_digit
    rw [← List.mem_reverse, hpr]
    exact List.mem_cons_self _ _
  refine ⟨d, pr ++ ('.' :: ((if q < 0 then ['-'] else []) ++
    natDigits ((ratRoundHalfUp (|q| * 10 ^ k)).toNat / 10 ^ k)).reverse).reverse.reverse, ?_, hd⟩
  unfold toFixed
  rw [List.reverse_append, List.reverse_cons, hpr]
  simp [List.append_assoc]

/-- dropWhile is the identity when the head is not accepted. -/
theorem dropWhile_eq_self_of_head (l : List Char)
    (h : ∀ c, l.head? = some c → isWS c = false) : l.dropWhile isWS = l := by
  cases l with
  | nil => rfl
  | cons c r =>
    rw [List.dropWhile_cons, if_neg (by rw [h c rfl]; simp)]

/-- trim is the identity when neither end is whitespace. -/
theorem jsTrim_id (l : List Char)
    (h1 : ∀ c, l.head? = some c → isWS c = false)
    (h2 : ∀ c, l.reverse.head? = some c → isWS c = false) :
    jsTrim l = l := by
  unfold jsTrim
  rw [dropWhile_eq_self_of_head l h1, dropWhile_eq_self_of_head l.reverse h2,
    List.reverse_reverse]

/-- Collapsing whitespace runs is the identity on whitespace-free input. -/
theorem collapseWSGo_no_ws (l : List Char) (h : ∀ c ∈ l, isWS c = false) :
    ∀ flag, collapseWSGo flag l = l := by
  induction l with
  | nil => intro flag; rfl
  | cons c r ih =>
    intro flag
    simp only [collapseWSGo]
    rw [if_neg (by rw [h c (List.mem_cons_self c r)]; simp)]
    rw [ih (fun x hx => h x (List.mem_cons_of_mem c hx)) false]

/-- Collapsing carries through a whitespace-free prefix. -/
theorem collapseWSGo_append_no_ws (A r : List Char) (hA : ∀ c ∈ A, isWS c = false) :
    collapseWSGo false (A ++ r) = A ++ collapseWSGo false r := by
  induction A with
  | nil => rfl
  | cons c A1 ih =>
    simp only [List.cons_append, collapseWSGo]
    rw [if_neg (by rw [hA c (List.mem_cons_self _ _)]; simp)]
    show c :: collapseWSGo false (A1 ++ r) = c :: (A1 ++ collapseWSGo false r)
    rw [ih (fun x hx => hA x (List.mem_cons_of_mem c hx))]

/-- Collapsing whitespace is the identity on a formatted pair of
whitespace-free tokens joined by one comma and one space. -/
theorem collapseWS_formatted (A B : List Char)
    (hA : ∀ c ∈ A, isWS c = false) (hB : ∀ c ∈ B, isWS c = false) :
    collapseWS (A ++ ',' :: ' ' :: B) = A ++ ',' :: ' ' :: B := by
  unfold collapseWS
  rw [collapseWSGo_append_no_ws A _ hA]
  rw [show collapseWSGo false (',' :: ' ' :: B) = ',' :: ' ' :: collapseWSGo true B from rfl]
  rw [collapseWSGo_no_ws B hB true]

/-- Splitting carries a separator-free prefix into the current token. -/
theorem splitGo_append_no_sep (A : List Char) (r cur : List Char)
    (hA : ∀ c ∈ A, isSep c = false) :
    splitGo isSep (A ++ r) cur false = splitGo isSep r (A.reverse ++ cur) false := by
  induction A generalizing cur with
  | nil => simp
  | cons c A1 ih =>
    simp only [List.cons_append, splitGo]
    rw [if_neg (by rw [hA c (List.mem_cons_self _ _)]; simp)]
    show splitGo isSep (A1 ++ r) (c :: cur) false =
      splitGo isSep r ((c :: A1).reverse ++ cur) false
    rw [ih _ (fun x hx => hA x (List.mem_cons_of_mem c hx))]
    rw [List.reverse_cons, List.append_assoc]
    rfl

/-- Splitting a separator-free run produces exactly one token. -/
theorem splitGo_no_sep_run (B cur : List Char) (flag : Bool)
    (hB : ∀ c ∈ B, isSep c = false) :
    splitGo isSep B cur flag = [cur.reverse ++ B] := by
  induction B generalizing cur flag with
  | nil => simp [splitGo]
  | cons c B1 ih =>
    simp only [splitGo]
    rw [if_neg (by rw [hB c (List.mem_cons_self _ _)]; simp)]
    rw [ih (c :: cur) false (fun x hx => hB x (List.mem_cons_of_mem c hx))]
    simp

/-- The split of two separator-free tokens joined by one comma and one space
is exactly the two tokens. -/
theorem splitSep_formatted (A B : List Char)
    (hA : ∀ c ∈ A, isSep c = false) (hB : ∀ c ∈ B, isSep c = false) :
    splitSep isSep (A ++ ',' :: ' ' :: B) = [A, B] := by
  unfold splitSep
  rw [splitGo_append_no_sep A _ [] hA]
  rw [show splitGo isSep (',' :: ' ' :: B) (A.reverse ++ []) false
      = (A.reverse ++ []).reverse :: splitGo isSep B [] true from by rfl]
  rw [splitGo_no_sep_run B [] true hB]
  simp

/-- parseFloat reads a fixed-point toFixed rendering back exactly. -/
theorem parseFloat_toFixed (k : Nat) (q : ℚ) (hk : 1 ≤ k) (h : q = roundTo k q) :
    parseFloat (toFixed k q) = some q := by
  unfold parseFloat
  rw [parseFloatAux_toFixed k q hk h]
  rfl

/-- Claim C4: round-trip law: a coordinate in range, with no zoom hint, whose
components are fixed points of rounding to six decimal places, is returned
unchanged by parse after formatting in decimal degrees. -/
theorem C4_round_trip (c : GeojumpCoordinates)
    (h1 : -90 ≤ c.lat) (h2 : c.lat ≤ 90) (h3 : -180 ≤ c.lon) (h4 : c.lon ≤ 180)
    (h5 : c.lat = roundTo 6 c.lat) (h6 : c.lon = roundTo 6 c.lon)
    (h7 : c.zoom = none) :
    parseCoordinates (formatCoordinates c CoordinateFormat.DECIMAL_DEGREES) = some c := by
  obtain ⟨lat, lon, zoom⟩ := c
  dsimp only at h1 h2 h3 h4 h5 h6 h7
  subst h7
  have hA_ws := toFixed_no_ws 6 lat
  have hB_ws := toFixed_no_ws 6 lon
  have hA_sep := toFixed_no_sep 6 lat
  have hB_sep := toFixed_no_sep 6 lon
  obtain ⟨a0, A1, hAcons⟩ := List.exists_cons_of_ne_nil (toFixed_ne_nil 6 lat)
  have ha0 : isWS a0 = false :=
    hA_ws a0 (by rw [hAcons]; exact List.mem_cons_self _ _)
  obtain ⟨d, B1, hBr, hd⟩ := toFixed_reverse_cons 6 lon
  have hdd : parseDecimalDegrees
      (toFixed 6 lat ++ ',' :: ' ' :: toFixed 6 lon) = some ⟨lat, lon, none⟩ := by
    unfold parseDecimalDegrees
    rw [collapseWS_formatted _ _ hA_ws hB_ws]
    rw [splitSep_formatted _ _ hA_sep hB_sep]
    dsimp only
    rw [parseFloat_toFixed 6 lat (by norm_num) h5,
      parseFloat_toFixed 6 lon (by norm_num) h6]
    dsimp only
    have hval : (isValidLatitude lat && isValidLongitude lon) = true := by
      rw [show isValidLatitude lat = true from decide_eq_true ⟨h1, h2⟩,
        show isValidLongitude lon = true from decide_eq_true ⟨h3, h4⟩]
      rfl
    rw [if_pos hval]
  have hne : (toFixed 6 lat ++ ',' :: ' ' :: toFixed 6 lon) ≠ [] := by
    rw [hAcons]
    simp
  have hh1 : ∀ x, (toFixed 6 lat ++ ',' :: ' ' :: toFixed 6 lon).head? = some x →
      isWS x = false := by
    intro x hx
    rw [hAcons] at hx
    rw [show ((a0 :: A1) ++ ',' :: ' ' :: toFixed 6 lon)
        = a0 :: (A1 ++ ',' :: ' ' :: toFixed 6 lon) from rfl] at hx
    rw [List.head?_cons] at hx
    injection hx with hx1
    subst hx1
    exact ha0
  have hh2 : ∀ x, (toFixed 6 lat ++ ',' :: ' ' :: toFixed 6 lon).reverse.head? = some x →
      isWS x = false := by
    intro x hx
    rw [List.reverse_append] at hx
    rw [show (',' :: ' ' :: toFixed 6 lon).reverse
        = (toFixed 6 lon).reverse ++ [' ', ','] from by simp] at hx
    rw [hBr] at hx
    rw [show (((d :: B1) ++ [' ', ','] : List Char) ++ (toFixed 6 lat).reverse)
        = d :: (B1 ++ [' ', ','] ++ (toFixed 6 lat).reverse) from by simp] at hx
    rw [List.head?_cons] at hx
    injection hx with hx1
    subst hx1
    exact not_ws_of_isDigit hd
  show parseCoordinates (String.mk (toFixed 6 lat ++ ',' :: ' ' :: toFixed 6 lon)) =
    some ⟨lat, lon, none⟩
  unfold parseCoordinates parseCoordinatesL
  rw [show (String.mk (toFixed 6 lat ++ ',' :: ' ' :: toFixed 6 lon)).data
      = toFixed 6 lat ++ ',' :: ' ' :: toFixed 6 lon from rfl]
  rw [if_neg hne]
  rw [jsTrim_id _ hh1 hh2]
  dsimp only
  rw [hdd]

/-- Witness for C4: the reference coordinate round-trips through the decimal
degrees formatter and the parser. -/
theorem C4_round_trip_witness :
    parseCoordinates (formatCoordinates ⟨40.7128, -74.0060, none⟩
      CoordinateFormat.DECIMAL_DEGREES) = some ⟨40.7128, -74.0060, none⟩ :=
  C4_round_trip ⟨40.7128, -74.0060, none⟩ (by decide) (by decide) (by decide)
    (by decide) (by decide) (by decide) rfl

end Geojump
